import Mathlib

/-!
Shallow embedding of the fixed-capacity containers of the
Embedded-System-Libraries repository: the latest-generation ring queue
(`Queue`, QueueContainer.h of July 17, 2021), the guarded `swap` of the
earlier modulo-based ring queue (QueueContainer.h of July 10, 2021), the
latest bounded stack (`Stack`, StackContainer.h of July 16, 2021), and the
checked accessor of the fixed array (`ArrayC`, ArrayContainer.h of
March 26, 2021).

Storage cells are modelled as `Option` values: `none` is an uninitialized
(dead) cell, `some v` a live cell holding `v`.  The C++ compile-time
template parameter `SIZE` becomes the `cap` field; indices are `Nat`
(all reachable indices stay below `cap`, so machine-width overflow is
irrelevant).  Placement-new into a cell writes `some v`; an explicit
destructor call writes `none`.
-/

/-- Branch-based circular increment of the latest queue
(`IncrementIndex`, QueueContainer.h July 17 version, line 101):
`index = (SIZE-1 == index) ? 0 : index+1`. -/
def incIdx (cap index : Nat) : Nat :=
  if index = cap - 1 then 0 else index + 1

/-- Modulo-based circular increment of the earlier queue
(`IncrementIndex`, QueueContainer.h July 10 version, line 74):
`index = (index + 1) % SIZE`. -/
def incIdxMod (cap index : Nat) : Nat := (index + 1) % cap

/-- State of `Queue<T, SIZE>` (latest generation): size `sz`, circular
indices `idxFront`/`idxBack`, and the `aligned_storage` cell array
`data` of length `cap` (= `SIZE`). -/
structure Queue (α : Type) where
  cap      : Nat
  sz       : Nat
  idxFront : Nat
  idxBack  : Nat
  data     : List (Option α)
deriving Repr, DecidableEq

namespace Queue

/-- Default constructor: `sz(0), idxFront(0), idxBack(SIZE-1)` over
uninitialized storage. -/
def init (α : Type) (cap : Nat) : Queue α :=
  ⟨cap, 0, 0, cap - 1, List.replicate cap none⟩

/-- Status checker `empty()`: `0 == sz`. -/
def emptyQ (q : Queue α) : Bool := q.sz = 0

/-- Status checker `full()`: `SIZE == sz`. -/
def fullQ (q : Queue α) : Bool := q.sz = q.cap

/-- Helper `at(elemIdx)`: the content of storage cell `i`
(`reinterpret_cast` of `data[elemIdx]`); a dead cell reads as `none`. -/
def cellAt (q : Queue α) (i : Nat) : Option α := (q.data[i]?).getD none

/-- Element access `front()`: reads the cell at `idxFront` unconditionally. -/
def front (q : Queue α) : Option α := q.cellAt q.idxFront

/-- Element access `back()`: reads the cell at `idxBack` unconditionally. -/
def back (q : Queue α) : Option α := q.cellAt q.idxBack

/-- Modifier `push(value)` (lines 219-239): reject when full, else advance
`idxBack` circularly, placement-construct at the new back, re-test
`full()` (still on the old `sz`) for the front adjustment, and add
`full() ? 0 : 1` to `sz`.  Returns the new state and the success flag. -/
def push (q : Queue α) (v : α) : Queue α × Bool :=
  if q.sz = q.cap then (q, false)
  else
    let ib := incIdx q.cap q.idxBack
    let d  := q.data.set ib (some v)
    let f  := if q.sz = q.cap then incIdx q.cap q.idxFront else q.idxFront
    let s  := q.sz + (if q.sz = q.cap then 0 else 1)
    ({ q with idxBack := ib, data := d, idxFront := f, sz := s }, true)

/-- Modifier `emplace(args...)` (lines 190-211): identical control flow to
`push`, with the element constructed in place from the arguments; the
constructed value is the parameter `v`. -/
def emplace (q : Queue α) (v : α) : Queue α × Bool :=
  if q.sz = q.cap then (q, false)
  else
    let ib := incIdx q.cap q.idxBack
    let d  := q.data.set ib (some v)
    let f  := if q.sz = q.cap then incIdx q.cap q.idxFront else q.idxFront
    let s  := q.sz + (if q.sz = q.cap then 0 else 1)
    ({ q with idxBack := ib, data := d, idxFront := f, sz := s }, true)

/-- Modifier `pop()` (lines 257-270): when not empty, destroy the cell at
`idxFront` (the explicit destructor call kills the cell), advance
`idxFront` circularly and decrement `sz`; otherwise do nothing. -/
def pop (q : Queue α) : Queue α :=
  if q.sz = 0 then q
  else
    { q with data := q.data.set q.idxFront none,
             idxFront := incIdx q.cap q.idxFront,
             sz := q.sz - 1 }

/-- Modifier `swap(swapQ)` of the latest queue (lines 276-283):
unconditionally exchanges `data`, `idxBack`, `idxFront` and `sz`. -/
def swap (a b : Queue α) : Queue α × Queue α :=
  ({ a with sz := b.sz, idxFront := b.idxFront, idxBack := b.idxBack, data := b.data },
   { b with sz := a.sz, idxFront := a.idxFront, idxBack := a.idxBack, data := a.data })

/-- Modifier `swap(swapQ)` of the earlier queue (QueueContainer.h July 10
version, lines 229-239): the member exchange is guarded by
`if (swapQ.empty() == false)`, so it does nothing when the argument
queue is empty. -/
def swapOld (a b : Queue α) : Queue α × Queue α :=
  if b.sz = 0 then (a, b)
  else
    ({ a with sz := b.sz, idxFront := b.idxFront, idxBack := b.idxBack, data := b.data },
     { b with sz := a.sz, idxFront := a.idxFront, idxBack := a.idxBack, data := a.data })

/-- Loop body of `operator==` (lines 297-305): compare `compQ.at(index1)`
with `at(index0)` for `compQ.size()` iterations, walking both cursors
with `IncrementIndex`. -/
def eqLoop [DecidableEq α] (a b : Queue α) : Nat → Nat → Nat → Bool
  | _,  _,  0     => true
  | i0, i1, n + 1 =>
    if b.cellAt i1 ≠ a.cellAt i0 then false
    else eqLoop a b (incIdx a.cap i0) (incIdx a.cap i1) n

/-- Comparison `operator==` (lines 290-309): sizes first, then the
element-wise circular walk from each queue's own front index. -/
def eqOp [DecidableEq α] (a b : Queue α) : Bool :=
  if b.sz ≠ a.sz then false
  else eqLoop a b a.idxFront b.idxFront b.sz

/-- While-loop `while(!empty()) pop();` run with explicit fuel; the fuel is
instantiated with the current size, which is exactly how often the loop
body executes. -/
def popAllFuel : Nat → Queue α → Queue α
  | 0,     q => q
  | n + 1, q => popAllFuel n q.pop

/-- Destruction loop shared by the destructor and the first half of the
copy assignment operator: pop until empty. -/
def popAll (q : Queue α) : Queue α := popAllFuel q.sz q

/-- Element-copy loop of `operator=` (lines 337-339): construct the cell at
`elemIdx` from `sourceQ.at(sourceIdx)`, stepping `elemIdx` linearly and
`sourceIdx` circularly, once per source element. -/
def copyCells (src : Queue α) : Nat → Nat → Nat → List (Option α) → List (Option α)
  | _,       _,      0,     d => d
  | elemIdx, srcIdx, n + 1, d =>
    copyCells src (elemIdx + 1) (incIdx src.cap srcIdx) n
      (d.set elemIdx (src.cellAt srcIdx))

/-- Copy assignment `operator=` (lines 327-347): pop all own elements, then
(when the source is not empty) copy-construct the source's elements
linearly from index 0 and take over `idxFront = 0`,
`idxBack = sourceQ.sz - 1`, `sz = sourceQ.sz`. -/
def assign (dest src : Queue α) : Queue α :=
  let d0 := dest.popAll
  if src.sz = 0 then d0
  else
    { d0 with data := copyCells src 0 src.idxFront src.sz d0.data,
              idxFront := 0, idxBack := src.sz - 1, sz := src.sz }

/-- Copy constructor (lines 126-131): default-initialize, then assign. -/
def copy (src : Queue α) : Queue α := assign (init α src.cap) src

/-- Observation: the contents of the live circular range in front-to-back
order, as cell reads (`some v` for a live cell, `none` for a dead one). -/
def obsList (q : Queue α) : List (Option α) :=
  (List.range q.sz).map (fun k => q.cellAt ((q.idxFront + k) % q.cap))

/-- Iterated `push` over a list, recording whether every push succeeded. -/
def pushMany (q : Queue α) : List α → Queue α × Bool
  | []        => (q, true)
  | x :: rest =>
    let r  := q.push x
    let r2 := pushMany r.1 rest
    (r2.1, r.2 && r2.2)

end Queue

/-- Iterated application of `IncrementIndex`, used to trace the cursor of
the element-wise loops (comparison, copy assignment). -/
def incIter (cap i : Nat) : Nat → Nat
  | 0     => i
  | k + 1 => incIter cap (incIdx cap i) k

/-- Inductive state invariant of the ring queue: capacity is positive
(`static_assert(SIZE != 0)`), `count` is between 0 and `SIZE`, both
indices are in range, the storage has exactly `SIZE` cells, the indices
and the count are consistent (`frontIndex + count ≡ backIndex + 1`
mod `SIZE`, which for `count > 0` is exactly
`backIndex = (frontIndex + count - 1) mod SIZE`), and the live cells are
exactly the circular range `[frontIndex, frontIndex + count - 1] mod
SIZE`. -/
def QInv (q : Queue α) : Prop :=
  0 < q.cap ∧ q.sz ≤ q.cap ∧ q.idxFront < q.cap ∧ q.idxBack < q.cap ∧
  q.data.length = q.cap ∧
  (q.idxFront + q.sz) % q.cap = (q.idxBack + 1) % q.cap ∧
  ∀ i, i < q.cap → ((q.cellAt i).isSome ↔ ∃ k, k < q.sz ∧ i = (q.idxFront + k) % q.cap)

instance (q : Queue α) : Decidable (QInv q) := by
  unfold QInv; infer_instance

/-- State of `Stack<T, SIZE>` (latest generation, StackContainer.h of
July 16, 2021): only `idxTop` (the number of live elements) plus the
`aligned_storage` cell array. -/
structure Stack (α : Type) where
  cap    : Nat
  idxTop : Nat
  data   : List (Option α)
deriving Repr, DecidableEq

namespace Stack

/-- Default constructor: `idxTop(0)` over uninitialized storage. -/
def init (α : Type) (cap : Nat) : Stack α :=
  ⟨cap, 0, List.replicate cap none⟩

/-- Status checker `empty()`: `0 == idxTop`. -/
def emptyS (s : Stack α) : Bool := s.idxTop = 0

/-- Status checker `full()`: `SIZE == idxTop`. -/
def fullS (s : Stack α) : Bool := s.idxTop = s.cap

/-- Cell read at index `i`; a dead cell reads as `none`. -/
def cellAt (s : Stack α) (i : Nat) : Option α := (s.data[i]?).getD none

/-- Element access `top()` (lines 123-130): when empty, returns the cell at
index 0; otherwise the cell at `idxTop - 1`. -/
def top (s : Stack α) : Option α :=
  if s.idxTop = 0 then s.cellAt 0 else s.cellAt (s.idxTop - 1)

/-- Index of the cell that `top()` reads. -/
def topAccessIdx (s : Stack α) : Nat :=
  if s.idxTop = 0 then 0 else s.idxTop - 1

/-- Modifier `push(value)` (lines 151-163): reject when full, else
copy-construct at `idxTop` and increment it. -/
def push (s : Stack α) (v : α) : Stack α × Bool :=
  if s.idxTop = s.cap then (s, false)
  else ({ s with data := s.data.set s.idxTop (some v), idxTop := s.idxTop + 1 }, true)

/-- Modifier `emplace(args...)` (lines 181-193): identical control flow to
`push`, constructing the value in place. -/
def emplace (s : Stack α) (v : α) : Stack α × Bool :=
  if s.idxTop = s.cap then (s, false)
  else ({ s with data := s.data.set s.idxTop (some v), idxTop := s.idxTop + 1 }, true)

/-- Modifier `pop()` (lines 198-208): when not empty, destroy the cell at
`idxTop - 1` and decrement `idxTop`. -/
def pop (s : Stack α) : Stack α :=
  if s.idxTop = 0 then s
  else { s with data := s.data.set (s.idxTop - 1) none, idxTop := s.idxTop - 1 }

/-- Modifier `swap(swapStack)` (lines 214-219): unconditional exchange of
`idxTop` and `data`. -/
def swap (a b : Stack α) : Stack α × Stack α :=
  ({ a with idxTop := b.idxTop, data := b.data },
   { b with idxTop := a.idxTop, data := a.data })

/-- While-loop `while(!empty()) pop();` run with explicit fuel; the fuel is
instantiated with the current size. -/
def popAllFuel : Nat → Stack α → Stack α
  | 0,     s => s
  | n + 1, s => popAllFuel n s.pop

/-- Destruction loop shared by the destructor and the first half of the
copy assignment operator. -/
def popAll (s : Stack α) : Stack α := popAllFuel s.idxTop s

/-- Element-copy loop of the stack's `operator=` (lines 263-264):
construct the cell at `elemIdx` from `sourceStack.at(elemIdx)`,
linearly, once per source element. -/
def copyCells (src : Stack α) : Nat → Nat → List (Option α) → List (Option α)
  | _, 0,     d => d
  | e, n + 1, d => copyCells src (e + 1) n (d.set e (src.cellAt e))

/-- Copy assignment `operator=` (lines 255-270): pop all own elements, then
(when the source is not empty) copy-construct the source's elements
linearly and take over `idxTop = sourceStack.idxTop`. -/
def assign (dest src : Stack α) : Stack α :=
  let d0 := dest.popAll
  if src.idxTop = 0 then d0
  else { d0 with data := copyCells src 0 src.idxTop d0.data, idxTop := src.idxTop }

/-- Copy constructor (lines 101-106): default-initialize, then assign. -/
def copy (src : Stack α) : Stack α := assign (init α src.cap) src

/-- Observation: the live cells `[0, idxTop)` in bottom-to-top order. -/
def obsList (s : Stack α) : List (Option α) :=
  (List.range s.idxTop).map (fun k => s.cellAt k)

end Stack

/-- Inductive state invariant of the bounded stack: capacity is positive,
`0 ≤ topIndex ≤ SIZE`, the storage has exactly `SIZE` cells, and the
live cells are exactly `[0, topIndex - 1]`, contiguously from the
bottom. -/
def SInv (s : Stack α) : Prop :=
  0 < s.cap ∧ s.idxTop ≤ s.cap ∧ s.data.length = s.cap ∧
  ∀ i, i < s.cap → ((s.cellAt i).isSome ↔ i < s.idxTop)

instance (s : Stack α) : Decidable (SInv s) := by
  unfold SInv; infer_instance

/-- State of `Array<T, SIZE>` (ArrayContainer.h): always-live elements. -/
structure ArrayC (α : Type) where
  cap  : Nat
  data : List α
deriving Repr, DecidableEq

namespace ArrayC

/-- Checked accessor `at(position)` (ArrayContainer.h lines 83-84):
`assert(position >= SIZE); return data[position];`.  In an
assertion-enabled build the call aborts (`Except.error`) when the
asserted condition `position >= SIZE` is false; otherwise it proceeds to
index `data[position]` (an out-of-bounds read yields no element). -/
def atChecked (a : ArrayC α) (position : Nat) : Except Unit (Option α) :=
  if a.cap ≤ position then Except.ok (a.data[position]?)
  else Except.error ()

end ArrayC

/-! ### Arithmetic and storage-cell helper lemmas -/

theorem incIdx_eq_mod {cap i : Nat} (hcap : 0 < cap) (hi : i < cap) :
    incIdx cap i = (i + 1) % cap := by
  unfold incIdx
  by_cases h : i = cap - 1
  · rw [if_pos h]
    have h1 : i + 1 = cap := by omega
    rw [h1, Nat.mod_self]
  · rw [if_neg h]
    have h1 : i + 1 < cap := by omega
    rw [Nat.mod_eq_of_lt h1]

theorem incIdx_lt {cap i : Nat} (hcap : 0 < cap) (hi : i < cap) :
    incIdx cap i < cap := by
  unfold incIdx; split <;> omega

theorem addMod_inj {cap f k1 k2 : Nat} (h1 : k1 < cap) (h2 : k2 < cap)
    (h : (f + k1) % cap = (f + k2) % cap) : k1 = k2 := by
  have hm : k1 % cap = k2 % cap := Nat.ModEq.add_left_cancel' f h
  rwa [Nat.mod_eq_of_lt h1, Nat.mod_eq_of_lt h2] at hm

theorem cellGet_set_self {α : Type} {l : List (Option α)} {i : Nat}
    (h : i < l.length) (v : Option α) :
    ((l.set i v)[i]?).getD none = v := by
  rw [List.getElem?_set_eq_of_lt v h]
  rfl

theorem cellGet_set_ne {α : Type} {l : List (Option α)} {i j : Nat}
    (h : i ≠ j) (v : Option α) :
    ((l.set i v)[j]?).getD none = (l[j]?).getD none := by
  rw [List.getElem?_set_ne h]

theorem incIter_eq_mod {cap : Nat} (hcap : 0 < cap) :
    ∀ (k i : Nat), i < cap → incIter cap i k = (i + k) % cap
  | 0, i, hi => by
    unfold incIter
    rw [Nat.add_zero, Nat.mod_eq_of_lt hi]
  | k + 1, i, hi => by
    unfold incIter
    rw [incIter_eq_mod hcap k _ (incIdx_lt hcap hi), incIdx_eq_mod hcap hi,
        Nat.mod_add_mod]
    congr 1
    omega

/-! ### Basic shapes of the queue operations -/

namespace Queue

theorem push_full_eq {α : Type} {q : Queue α} (v : α) (h : q.sz = q.cap) :
    q.push v = (q, false) ∧ q.emplace v = (q, false) := by
  constructor <;> simp [push, emplace, h]

theorem push_not_full_eq {α : Type} {q : Queue α} (v : α) (h : q.sz ≠ q.cap) :
    q.push v
        = ({ q with sz := q.sz + 1,
                    idxBack := incIdx q.cap q.idxBack,
                    data := q.data.set (incIdx q.cap q.idxBack) (some v) }, true)
      ∧ q.emplace v
        = ({ q with sz := q.sz + 1,
                    idxBack := incIdx q.cap q.idxBack,
                    data := q.data.set (incIdx q.cap q.idxBack) (some v) }, true) := by
  constructor <;> simp [push, emplace, h]

theorem emplace_eq_push {α : Type} (q : Queue α) (v : α) : q.emplace v = q.push v := rfl

theorem pop_empty_eq {α : Type} {q : Queue α} (h : q.sz = 0) : q.pop = q := by
  simp [pop, h]

theorem pop_not_empty_eq {α : Type} {q : Queue α} (h : q.sz ≠ 0) :
    q.pop = { q with data := q.data.set q.idxFront none,
                     idxFront := incIdx q.cap q.idxFront,
                     sz := q.sz - 1 } := by
  simp [pop, h]

theorem pop_cap {α : Type} (q : Queue α) : q.pop.cap = q.cap := by
  unfold pop; split
  · rfl
  · rfl

theorem pop_sz {α : Type} (q : Queue α) : q.pop.sz = q.sz - 1 := by
  unfold pop; split
  · omega
  · rfl

/-! ### Invariant preservation for the queue -/

theorem push_inv {α : Type} {q : Queue α} (v : α) (h : QInv q) (hlt : q.sz < q.cap) :
    QInv (q.push v).1 := by
  obtain ⟨hcap, hsz, hf, hb, hlen, heq, hlive⟩ := h
  have hne : q.sz ≠ q.cap := Nat.ne_of_lt hlt
  rw [(push_not_full_eq v hne).1]
  have hib : incIdx q.cap q.idxBack < q.cap := incIdx_lt hcap hb
  have hibf : incIdx q.cap q.idxBack = (q.idxFront + q.sz) % q.cap := by
    rw [incIdx_eq_mod hcap hb, ← heq]
  refine ⟨hcap, show q.sz + 1 ≤ q.cap by omega, hf, hib,
    show (q.data.set (incIdx q.cap q.idxBack) (some v)).length = q.cap by
      simpa using hlen, ?_, ?_⟩
  · show (q.idxFront + (q.sz + 1)) % q.cap = (incIdx q.cap q.idxBack + 1) % q.cap
    rw [hibf, Nat.mod_add_mod, ← Nat.add_assoc]
  · show ∀ i, i < q.cap →
      ((((q.data.set (incIdx q.cap q.idxBack) (some v))[i]?).getD none).isSome
        ↔ ∃ k, k < q.sz + 1 ∧ i = (q.idxFront + k) % q.cap)
    intro i hi
    by_cases hicase : i = incIdx q.cap q.idxBack
    · subst hicase
      rw [cellGet_set_self (by rw [hlen]; exact hib) (some v)]
      simp only [Option.isSome_some, true_iff]
      exact ⟨q.sz, by omega, hibf⟩
    · rw [cellGet_set_ne (fun hh => hicase hh.symm) (some v)]
      have hl := hlive i hi
      simp only [cellAt] at hl
      rw [hl]
      constructor
      · rintro ⟨k, hk, rfl⟩
        exact ⟨k, by omega, rfl⟩
      · rintro ⟨k, hk, rfl⟩
        by_cases hks : k = q.sz
        · subst hks
          exact absurd hibf.symm hicase
        · exact ⟨k, by omega, rfl⟩

theorem pop_inv {α : Type} {q : Queue α} (h : QInv q) : QInv q.pop := by
  by_cases hz : q.sz = 0
  · rw [pop_empty_eq hz]; exact h
  · obtain ⟨hcap, hsz, hf, hb, hlen, heq, hlive⟩ := h
    rw [pop_not_empty_eq hz]
    have hfm : incIdx q.cap q.idxFront = (q.idxFront + 1) % q.cap :=
      incIdx_eq_mod hcap hf
    refine ⟨hcap, show q.sz - 1 ≤ q.cap by omega, incIdx_lt hcap hf, hb,
      show (q.data.set q.idxFront none).length = q.cap by simpa using hlen, ?_, ?_⟩
    · show (incIdx q.cap q.idxFront + (q.sz - 1)) % q.cap = (q.idxBack + 1) % q.cap
      rw [hfm, Nat.mod_add_mod, ← heq]
      congr 1
      omega
    · show ∀ i, i < q.cap →
        ((((q.data.set q.idxFront none)[i]?).getD none).isSome
          ↔ ∃ k, k < q.sz - 1 ∧ i = (incIdx q.cap q.idxFront + k) % q.cap)
      intro i hi
      by_cases hicase : i = q.idxFront
      · subst hicase
        rw [cellGet_set_self (by rw [hlen]; exact hf) none]
        simp only [Option.isSome_none, Bool.false_eq_true, false_iff]
        rintro ⟨k, hk, hkf⟩
        rw [hfm, Nat.mod_add_mod] at hkf
        have hstep : q.idxFront + 1 + k = q.idxFront + (k + 1) := by omega
        rw [hstep] at hkf
        have hfe : q.idxFront = (q.idxFront + 0) % q.cap := by
          rw [Nat.add_zero, Nat.mod_eq_of_lt hf]
        have h0 : (q.idxFront + 0) % q.cap = (q.idxFront + (k + 1)) % q.cap := by
          rw [← hfe, ← hkf]
        have := addMod_inj (by omega) (by omega) h0
        omega
      · rw [cellGet_set_ne (fun hh => hicase hh.symm) none]
        have hl := hlive i hi
        simp only [cellAt] at hl
        rw [hl]
        constructor
        · rintro ⟨k, hk, rfl⟩
          rcases k with _ | k2
          · exact absurd (by rw [Nat.add_zero, Nat.mod_eq_of_lt hf]) hicase
          · refine ⟨k2, by omega, ?_⟩
            rw [hfm, Nat.mod_add_mod]
            congr 1
            omega
        · rintro ⟨k, hk, rfl⟩
          refine ⟨k + 1, by omega, ?_⟩
          rw [hfm, Nat.mod_add_mod]
          congr 1
          omega

end Queue

namespace Queue

theorem init_inv (α : Type) {cap : Nat} (hcap : 0 < cap) : QInv (Queue.init α cap) := by
  refine ⟨hcap, Nat.zero_le _, hcap, show cap - 1 < cap by omega,
    by simp [init], ?_, ?_⟩
  · show (0 + 0) % cap = (cap - 1 + 1) % cap
    have h1 : cap - 1 + 1 = cap := by omega
    rw [h1, Nat.mod_self]
    simp
  · show ∀ i, i < cap →
      ((((List.replicate cap (none : Option α))[i]?).getD none).isSome
        ↔ ∃ k, k < 0 ∧ i = (0 + k) % cap)
    intro i hi
    rw [List.getElem?_replicate, if_pos hi]
    simp

theorem init_obsList (α : Type) (cap : Nat) : (Queue.init α cap).obsList = [] := rfl

theorem swap_exchange {α : Type} {a b : Queue α} (hc : a.cap = b.cap) :
    Queue.swap a b = (b, a) := by
  cases a with
  | mk c1 s1 f1 b1 d1 =>
  cases b with
  | mk c2 s2 f2 b2 d2 =>
  have hc2 : c1 = c2 := hc
  subst hc2
  rfl

theorem popAllFuel_spec {α : Type} :
    ∀ (n : Nat) (q : Queue α), QInv q → n = q.sz →
      QInv (popAllFuel n q) ∧ (popAllFuel n q).sz = 0 ∧ (popAllFuel n q).cap = q.cap
  | 0, _, h, hn => ⟨h, hn.symm, rfl⟩
  | n + 1, q, h, hn => by
    have h1 := popAllFuel_spec n q.pop (pop_inv h) (by rw [pop_sz]; omega)
    refine ⟨h1.1, h1.2.1, ?_⟩
    show (popAllFuel n q.pop).cap = q.cap
    rw [h1.2.2, pop_cap]

theorem popAll_spec {α : Type} {q : Queue α} (h : QInv q) :
    QInv q.popAll ∧ q.popAll.sz = 0 ∧ q.popAll.cap = q.cap ∧
      ∀ i, q.popAll.cellAt i = none := by
  obtain ⟨h1, h2, h3⟩ := popAllFuel_spec q.sz q h rfl
  refine ⟨h1, h2, h3, ?_⟩
  intro i
  obtain ⟨hcap, hsz, hf, hb, hlen, heq, hlive⟩ := h1
  by_cases hi : i < q.popAll.cap
  · have hi2 : i < (popAllFuel q.sz q).cap := hi
    have hl := hlive i hi2
    rw [h2] at hl
    cases hcell : q.popAll.cellAt i with
    | none => rfl
    | some x =>
      have hcell2 : (popAllFuel q.sz q).cellAt i = some x := hcell
      rw [hcell2] at hl
      obtain ⟨k, hk, _⟩ := hl.mp rfl
      omega
  · unfold cellAt
    rw [List.getElem?_eq_none]
    · rfl
    · show (popAllFuel q.sz q).data.length ≤ i
      have hi2 : ¬ i < (popAllFuel q.sz q).cap := hi
      rw [hlen]
      omega

theorem obsList_push {α : Type} {q : Queue α} (v : α) (h : QInv q) (hlt : q.sz < q.cap) :
    ((q.push v).1).obsList = q.obsList ++ [some v] := by
  obtain ⟨hcap, hsz, hf, hb, hlen, heq, hlive⟩ := h
  have hne : q.sz ≠ q.cap := Nat.ne_of_lt hlt
  rw [(push_not_full_eq v hne).1]
  have hib : incIdx q.cap q.idxBack < q.cap := incIdx_lt hcap hb
  have hibf : incIdx q.cap q.idxBack = (q.idxFront + q.sz) % q.cap := by
    rw [incIdx_eq_mod hcap hb, ← heq]
  show (List.range (q.sz + 1)).map
      (fun k => ((q.data.set (incIdx q.cap q.idxBack) (some v))[(q.idxFront + k) % q.cap]?).getD none)
    = q.obsList ++ [some v]
  rw [List.range_succ, List.map_append]
  congr 1
  · simp only [obsList, cellAt]
    apply List.map_congr_left
    intro k hk
    have hk2 : k < q.sz := List.mem_range.mp hk
    apply cellGet_set_ne
    intro hh
    rw [hibf] at hh
    have := addMod_inj hlt (show k < q.cap by omega) hh
    omega
  · simp only [List.map_cons, List.map_nil]
    rw [← hibf, cellGet_set_self (by rw [hlen]; exact hib) (some v)]

theorem obsList_cons {α : Type} {q : Queue α} (h : QInv q) (hpos : 0 < q.sz) :
    q.obsList = q.front :: q.pop.obsList := by
  obtain ⟨hcap, hsz, hf, hb, hlen, heq, hlive⟩ := h
  have hz : q.sz ≠ 0 := by omega
  rw [pop_not_empty_eq hz]
  show (List.range q.sz).map (fun k => q.cellAt ((q.idxFront + k) % q.cap))
      = q.front :: (List.range (q.sz - 1)).map
          (fun k => ((q.data.set q.idxFront none)[(incIdx q.cap q.idxFront + k) % q.cap]?).getD none)
  obtain ⟨m, hm⟩ : ∃ m, q.sz = m + 1 := ⟨q.sz - 1, by omega⟩
  rw [hm]
  simp only [Nat.add_sub_cancel]
  rw [List.range_succ_eq_map, List.map_cons]
  congr 1
  · show q.cellAt ((q.idxFront + 0) % q.cap) = q.front
    rw [Nat.add_zero, Nat.mod_eq_of_lt hf]
    rfl
  · rw [List.map_map]
    apply List.map_congr_left
    intro k hk
    have hk2 : k < m := List.mem_range.mp hk
    show q.cellAt ((q.idxFront + Nat.succ k) % q.cap)
        = ((q.data.set q.idxFront none)[(incIdx q.cap q.idxFront + k) % q.cap]?).getD none
    rw [incIdx_eq_mod hcap hf, Nat.mod_add_mod]
    have hidx : q.idxFront + 1 + k = q.idxFront + Nat.succ k := by omega
    rw [hidx]
    rw [cellGet_set_ne]
    · rfl
    · intro hh
      have hf0 : (q.idxFront + 0) % q.cap = (q.idxFront + Nat.succ k) % q.cap := by
        rw [Nat.add_zero, Nat.mod_eq_of_lt hf]
        exact hh
      have := addMod_inj (show 0 < q.cap from hcap)
        (show Nat.succ k < q.cap by omega) hf0
      omega

end Queue

namespace Queue

theorem push_cap {α : Type} (q : Queue α) (v : α) : (q.push v).1.cap = q.cap := by
  unfold push; split
  · rfl
  · rfl

theorem push_flag {α : Type} {q : Queue α} (v : α) (h : q.sz ≠ q.cap) :
    (q.push v).2 = true := by
  rw [(push_not_full_eq v h).1]

theorem push_sz {α : Type} {q : Queue α} (v : α) (h : q.sz ≠ q.cap) :
    (q.push v).1.sz = q.sz + 1 := by
  rw [(push_not_full_eq v h).1]

theorem obsList_sz_zero {α : Type} {q : Queue α} (h : q.sz = 0) : q.obsList = [] := by
  simp [obsList, h]

theorem pushMany_spec {α : Type} :
    ∀ (xs : List α) (q : Queue α), QInv q → q.sz + xs.length ≤ q.cap →
      (q.pushMany xs).2 = true ∧ QInv (q.pushMany xs).1 ∧
      (q.pushMany xs).1.sz = q.sz + xs.length ∧
      (q.pushMany xs).1.cap = q.cap ∧
      (q.pushMany xs).1.obsList = q.obsList ++ xs.map some
  | [], q, h, _ => ⟨rfl, h, by simp [pushMany], rfl, by simp [pushMany]⟩
  | x :: rest, q, h, hle => by
    have hlt : q.sz < q.cap := by
      simp only [List.length_cons] at hle
      omega
    have hne : q.sz ≠ q.cap := Nat.ne_of_lt hlt
    have hq2 : QInv (q.push x).1 := push_inv x h hlt
    have hsz2 : (q.push x).1.sz = q.sz + 1 := push_sz x hne
    have hcap2 : (q.push x).1.cap = q.cap := push_cap q x
    have ih := pushMany_spec rest (q.push x).1 hq2 (by
      rw [hsz2, hcap2]
      simp only [List.length_cons] at hle
      omega)
    refine ⟨?_, ih.2.1, ?_, ?_, ?_⟩
    · show ((q.push x).2 && ((q.push x).1.pushMany rest).2) = true
      rw [push_flag x hne, ih.1]
      rfl
    · show ((q.push x).1.pushMany rest).1.sz = q.sz + (x :: rest).length
      rw [ih.2.2.1, hsz2]
      simp only [List.length_cons]
      omega
    · show ((q.push x).1.pushMany rest).1.cap = q.cap
      rw [ih.2.2.2.1, hcap2]
    · show ((q.push x).1.pushMany rest).1.obsList = q.obsList ++ (x :: rest).map some
      rw [ih.2.2.2.2, obsList_push x h hlt]
      simp

theorem copyCells_length {α : Type} (src : Queue α) :
    ∀ (n e i0 : Nat) (d : List (Option α)),
      (copyCells src e i0 n d).length = d.length
  | 0, _, _, _ => rfl
  | n + 1, e, i0, d => by
    show (copyCells src (e + 1) (incIdx src.cap i0) n (d.set e (src.cellAt i0))).length
      = d.length
    rw [copyCells_length src n _ _ _]
    simp

theorem copyCells_cell_lo {α : Type} (src : Queue α) :
    ∀ (n e i0 : Nat) (d : List (Option α)) (j : Nat), j < e →
      ((copyCells src e i0 n d)[j]?).getD none = (d[j]?).getD none
  | 0, _, _, _, _, _ => rfl
  | n + 1, e, i0, d, j, hj => by
    show ((copyCells src (e + 1) (incIdx src.cap i0) n (d.set e (src.cellAt i0)))[j]?).getD none
      = (d[j]?).getD none
    rw [copyCells_cell_lo src n _ _ _ j (by omega)]
    exact cellGet_set_ne (by omega) _

theorem copyCells_cell_hi {α : Type} (src : Queue α) :
    ∀ (n e i0 : Nat) (d : List (Option α)) (j : Nat), e + n ≤ j →
      ((copyCells src e i0 n d)[j]?).getD none = (d[j]?).getD none
  | 0, _, _, _, _, _ => rfl
  | n + 1, e, i0, d, j, hj => by
    show ((copyCells src (e + 1) (incIdx src.cap i0) n (d.set e (src.cellAt i0)))[j]?).getD none
      = (d[j]?).getD none
    rw [copyCells_cell_hi src n _ _ _ j (by omega)]
    exact cellGet_set_ne (by omega) _

theorem copyCells_cell_mid {α : Type} (src : Queue α) :
    ∀ (n e i0 : Nat) (d : List (Option α)) (j : Nat),
      e ≤ j → j < e + n → j < d.length →
      ((copyCells src e i0 n d)[j]?).getD none = src.cellAt (incIter src.cap i0 (j - e))
  | 0, _, _, _, _, h1, h2, _ => by omega
  | n + 1, e, i0, d, j, h1, h2, h3 => by
    show ((copyCells src (e + 1) (incIdx src.cap i0) n (d.set e (src.cellAt i0)))[j]?).getD none
      = src.cellAt (incIter src.cap i0 (j - e))
    by_cases hj : j = e
    · subst hj
      rw [copyCells_cell_lo src n _ _ _ j (by omega), cellGet_set_self h3 _, Nat.sub_self]
      rfl
    · rw [copyCells_cell_mid src n (e + 1) _ _ j (by omega) (by omega) (by simpa using h3)]
      congr 1
      have hje : j - e = (j - (e + 1)) + 1 := by omega
      rw [hje]
      rfl

theorem assign_empty_eq {α : Type} {dest src : Queue α} (h : src.sz = 0) :
    dest.assign src = dest.popAll := by
  simp [assign, h]

theorem assign_not_empty_eq {α : Type} {dest src : Queue α} (h : src.sz ≠ 0) :
    dest.assign src
      = { dest.popAll with
            data := copyCells src 0 src.idxFront src.sz dest.popAll.data,
            idxFront := 0, idxBack := src.sz - 1, sz := src.sz } := by
  simp [assign, h]

theorem assign_spec {α : Type} {dest src : Queue α} (hc : dest.cap = src.cap)
    (hd : QInv dest) (hs : QInv src) :
    QInv (dest.assign src) ∧ (dest.assign src).sz = src.sz ∧
    (dest.assign src).cap = dest.cap ∧
    (dest.assign src).obsList = src.obsList ∧
    (0 < src.sz → (dest.assign src).idxFront = 0 ∧ (dest.assign src).idxBack = src.sz - 1) ∧
    (∀ j, j < src.sz → (dest.assign src).cellAt j = src.cellAt ((src.idxFront + j) % src.cap)) := by
  obtain ⟨hd0, hd0sz, hd0cap, hd0cell⟩ := popAll_spec hd
  obtain ⟨hscap, hssz, hsf, hsb, hslen, hseq, hslive⟩ := hs
  have hd0len : dest.popAll.data.length = dest.popAll.cap := by
    obtain ⟨_, _, _, _, hl, _, _⟩ := hd0
    exact hl
  have hd0capS : dest.popAll.cap = src.cap := by rw [hd0cap, hc]
  by_cases hz : src.sz = 0
  · rw [assign_empty_eq hz]
    refine ⟨hd0, by omega, hd0cap, ?_, by omega, by omega⟩
    rw [obsList_sz_zero hd0sz, obsList_sz_zero hz]
  · rw [assign_not_empty_eq hz]
    have hcellmid : ∀ j, j < src.sz →
        ((copyCells src 0 src.idxFront src.sz dest.popAll.data)[j]?).getD none
          = src.cellAt ((src.idxFront + j) % src.cap) := by
      intro j hj
      rw [copyCells_cell_mid src src.sz 0 src.idxFront _ j (Nat.zero_le j) (by omega)
            (by rw [hd0len, hd0capS]; omega), Nat.sub_zero,
          incIter_eq_mod hscap j src.idxFront hsf]
    have hcellhi : ∀ j, src.sz ≤ j →
        ((copyCells src 0 src.idxFront src.sz dest.popAll.data)[j]?).getD none = none := by
      intro j hj
      rw [copyCells_cell_hi src src.sz 0 src.idxFront _ j (by omega)]
      have h2 := hd0cell j
      simpa [cellAt] using h2
    refine ⟨⟨?_, ?_, ?_, ?_, ?_, ?_, ?_⟩, rfl, hd0cap, ?_, fun _ => ⟨rfl, rfl⟩, ?_⟩
    · show 0 < dest.popAll.cap
      rw [hd0capS]; exact hscap
    · show src.sz ≤ dest.popAll.cap
      rw [hd0capS]; exact hssz
    · show 0 < dest.popAll.cap
      rw [hd0capS]; exact hscap
    · show src.sz - 1 < dest.popAll.cap
      rw [hd0capS]; omega
    · show (copyCells src 0 src.idxFront src.sz dest.popAll.data).length = dest.popAll.cap
      rw [copyCells_length src src.sz 0 src.idxFront _, hd0len]
    · show (0 + src.sz) % dest.popAll.cap = (src.sz - 1 + 1) % dest.popAll.cap
      have h1 : src.sz - 1 + 1 = src.sz := by omega
      rw [h1, Nat.zero_add]
    · show ∀ i, i < dest.popAll.cap →
        ((((copyCells src 0 src.idxFront src.sz dest.popAll.data)[i]?).getD none).isSome
          ↔ ∃ k, k < src.sz ∧ i = (0 + k) % dest.popAll.cap)
      intro i hi
      by_cases hilt : i < src.sz
      · refine iff_of_true ?_ ?_
        · rw [hcellmid i hilt]
          have hmlt : (src.idxFront + i) % src.cap < src.cap := Nat.mod_lt _ hscap
          exact (hslive _ hmlt).mpr ⟨i, hilt, rfl⟩
        · refine ⟨i, hilt, ?_⟩
          rw [Nat.zero_add, Nat.mod_eq_of_lt (by rw [hd0capS]; omega)]
      · refine iff_of_false ?_ ?_
        · rw [hcellhi i (by omega)]
          simp
        · rintro ⟨k, hk, hik⟩
          rw [Nat.zero_add, Nat.mod_eq_of_lt (by rw [hd0capS]; omega)] at hik
          omega
    · show (List.range src.sz).map
          (fun k => ((copyCells src 0 src.idxFront src.sz dest.popAll.data)[(0 + k) % dest.popAll.cap]?).getD none)
        = src.obsList
      unfold obsList
      apply List.map_congr_left
      intro k hk
      have hk2 : k < src.sz := List.mem_range.mp hk
      have hkc : (0 + k) % dest.popAll.cap = k := by
        rw [Nat.zero_add, Nat.mod_eq_of_lt (by rw [hd0capS]; omega)]
      rw [hkc]
      exact hcellmid k hk2
    · show ∀ j, j < src.sz →
        ((copyCells src 0 src.idxFront src.sz dest.popAll.data)[j]?).getD none
          = src.cellAt ((src.idxFront + j) % src.cap)
      exact hcellmid

theorem eqLoop_true_of {α : Type} [DecidableEq α] (a b : Queue α) :
    ∀ (n i0 i1 : Nat),
      (∀ k, k < n → b.cellAt (incIter a.cap i1 k) = a.cellAt (incIter a.cap i0 k)) →
      eqLoop a b i0 i1 n = true
  | 0, _, _, _ => rfl
  | n + 1, i0, i1, hpt => by
    show (if b.cellAt i1 ≠ a.cellAt i0 then false
          else eqLoop a b (incIdx a.cap i0) (incIdx a.cap i1) n) = true
    have h0 : b.cellAt i1 = a.cellAt i0 := hpt 0 (by omega)
    rw [if_neg (not_not_intro h0)]
    exact eqLoop_true_of a b n (incIdx a.cap i0) (incIdx a.cap i1)
      (fun k hk => hpt (k + 1) (by omega))

theorem assign_eqOp {α : Type} [DecidableEq α] {dest src : Queue α} (hc : dest.cap = src.cap)
    (hd : QInv dest) (hs : QInv src) :
    eqOp (dest.assign src) src = true := by
  obtain ⟨hinv, hsz, hcap, hobs, hidx, hcells⟩ := assign_spec hc hd hs
  obtain ⟨hscap, hssz, hsf, hsb, hslen, hseq, hslive⟩ := hs
  unfold eqOp
  rw [if_neg (by simp [hsz])]
  by_cases hz : src.sz = 0
  · rw [hz]
    rfl
  · obtain ⟨hf0, _⟩ := hidx (by omega)
    rw [hf0]
    apply eqLoop_true_of
    intro k hk
    have hacap : (dest.assign src).cap = src.cap := by rw [hcap, hc]
    rw [hacap, incIter_eq_mod hscap k src.idxFront hsf,
        incIter_eq_mod hscap k 0 hscap]
    have hkc : (0 + k) % src.cap = k := by
      rw [Nat.zero_add, Nat.mod_eq_of_lt (by omega)]
    rw [hkc]
    exact (hcells k hk).symm

end Queue

namespace Stack

theorem push_full_eqS {α : Type} {s : Stack α} (v : α) (h : s.idxTop = s.cap) :
    s.push v = (s, false) ∧ s.emplace v = (s, false) := by
  constructor <;> simp [push, emplace, h]

theorem push_not_full_eqS {α : Type} {s : Stack α} (v : α) (h : s.idxTop ≠ s.cap) :
    s.push v
        = ({ s with data := s.data.set s.idxTop (some v), idxTop := s.idxTop + 1 }, true)
      ∧ s.emplace v
        = ({ s with data := s.data.set s.idxTop (some v), idxTop := s.idxTop + 1 }, true) := by
  constructor <;> simp [push, emplace, h]

theorem emplace_eq_pushS {α : Type} (s : Stack α) (v : α) : s.emplace v = s.push v := rfl

theorem pop_empty_eqS {α : Type} {s : Stack α} (h : s.idxTop = 0) : s.pop = s := by
  simp [pop, h]

theorem pop_not_empty_eqS {α : Type} {s : Stack α} (h : s.idxTop ≠ 0) :
    s.pop = { s with data := s.data.set (s.idxTop - 1) none, idxTop := s.idxTop - 1 } := by
  simp [pop, h]

theorem pop_capS {α : Type} (s : Stack α) : s.pop.cap = s.cap := by
  unfold pop; split
  · rfl
  · rfl

theorem pop_idxTop {α : Type} (s : Stack α) : s.pop.idxTop = s.idxTop - 1 := by
  unfold pop; split
  · omega
  · rfl

theorem init_invS (α : Type) {cap : Nat} (hcap : 0 < cap) : SInv (Stack.init α cap) := by
  refine ⟨hcap, Nat.zero_le _, by simp [init], ?_⟩
  show ∀ i, i < cap →
    ((((List.replicate cap (none : Option α))[i]?).getD none).isSome ↔ i < 0)
  intro i hi
  rw [List.getElem?_replicate, if_pos hi]
  simp

theorem init_obsListS (α : Type) (cap : Nat) : (Stack.init α cap).obsList = [] := rfl

theorem push_invS {α : Type} {s : Stack α} (v : α) (h : SInv s) (hlt : s.idxTop < s.cap) :
    SInv (s.push v).1 := by
  obtain ⟨hcap, htop, hlen, hlive⟩ := h
  rw [(push_not_full_eqS v (Nat.ne_of_lt hlt)).1]
  refine ⟨hcap, show s.idxTop + 1 ≤ s.cap by omega, by simpa using hlen, ?_⟩
  show ∀ i, i < s.cap →
    ((((s.data.set s.idxTop (some v))[i]?).getD none).isSome ↔ i < s.idxTop + 1)
  intro i hi
  by_cases hic : i = s.idxTop
  · subst hic
    rw [cellGet_set_self (by rw [hlen]; exact hlt) _]
    exact iff_of_true rfl (by omega)
  · rw [cellGet_set_ne (fun hh => hic hh.symm) _]
    have hl := hlive i hi
    simp only [cellAt] at hl
    rw [hl]
    omega

theorem pop_invS {α : Type} {s : Stack α} (h : SInv s) : SInv s.pop := by
  by_cases hz : s.idxTop = 0
  · rw [pop_empty_eqS hz]; exact h
  · obtain ⟨hcap, htop, hlen, hlive⟩ := h
    rw [pop_not_empty_eqS hz]
    refine ⟨hcap, show s.idxTop - 1 ≤ s.cap by omega, by simpa using hlen, ?_⟩
    show ∀ i, i < s.cap →
      ((((s.data.set (s.idxTop - 1) none)[i]?).getD none).isSome ↔ i < s.idxTop - 1)
    intro i hi
    by_cases hic : i = s.idxTop - 1
    · subst hic
      rw [cellGet_set_self (by rw [hlen]; omega) _]
      exact iff_of_false (by simp) (by omega)
    · rw [cellGet_set_ne (fun hh => hic hh.symm) _]
      have hl := hlive i hi
      simp only [cellAt] at hl
      rw [hl]
      omega

theorem swap_exchangeS {α : Type} {a b : Stack α} (hc : a.cap = b.cap) :
    Stack.swap a b = (b, a) := by
  cases a with
  | mk c1 t1 d1 =>
  cases b with
  | mk c2 t2 d2 =>
  have hc2 : c1 = c2 := hc
  subst hc2
  rfl

theorem popAllFuel_specS {α : Type} :
    ∀ (n : Nat) (s : Stack α), SInv s → n = s.idxTop →
      SInv (popAllFuel n s) ∧ (popAllFuel n s).idxTop = 0 ∧ (popAllFuel n s).cap = s.cap
  | 0, _, h, hn => ⟨h, hn.symm, rfl⟩
  | n + 1, s, h, hn => by
    have h1 := popAllFuel_specS n s.pop (pop_invS h) (by rw [pop_idxTop]; omega)
    refine ⟨h1.1, h1.2.1, ?_⟩
    show (popAllFuel n s.pop).cap = s.cap
    rw [h1.2.2, pop_capS]

theorem popAll_specS {α : Type} {s : Stack α} (h : SInv s) :
    SInv s.popAll ∧ s.popAll.idxTop = 0 ∧ s.popAll.cap = s.cap ∧
      ∀ i, s.popAll.cellAt i = none := by
  obtain ⟨h1, h2, h3⟩ := popAllFuel_specS s.idxTop s h rfl
  refine ⟨h1, h2, h3, ?_⟩
  intro i
  obtain ⟨hcap, htop, hlen, hlive⟩ := h1
  by_cases hi : i < s.popAll.cap
  · have hi2 : i < (popAllFuel s.idxTop s).cap := hi
    have hl := hlive i hi2
    rw [h2] at hl
    cases hcell : s.popAll.cellAt i with
    | none => rfl
    | some x =>
      have hcell2 : (popAllFuel s.idxTop s).cellAt i = some x := hcell
      rw [hcell2] at hl
      have := hl.mp rfl
      omega
  · unfold cellAt
    rw [List.getElem?_eq_none]
    · rfl
    · show (popAllFuel s.idxTop s).data.length ≤ i
      have hi2 : ¬ i < (popAllFuel s.idxTop s).cap := hi
      rw [hlen]
      omega

theorem obsList_top_zero {α : Type} {s : Stack α} (h : s.idxTop = 0) : s.obsList = [] := by
  simp [obsList, h]

theorem obsList_pushS {α : Type} {s : Stack α} (v : α) (h : SInv s) (hlt : s.idxTop < s.cap) :
    (s.push v).1.obsList = s.obsList ++ [some v] ∧ (s.push v).1.top = some v := by
  obtain ⟨hcap, htop, hlen, hlive⟩ := h
  rw [(push_not_full_eqS v (Nat.ne_of_lt hlt)).1]
  constructor
  · show (List.range (s.idxTop + 1)).map
        (fun k => ((s.data.set s.idxTop (some v))[k]?).getD none)
      = s.obsList ++ [some v]
    rw [List.range_succ, List.map_append]
    congr 1
    · unfold obsList cellAt
      apply List.map_congr_left
      intro k hk
      exact cellGet_set_ne (by have := List.mem_range.mp hk; omega) _
    · simp only [List.map_cons, List.map_nil]
      rw [cellGet_set_self (by rw [hlen]; exact hlt) _]
  · show (if s.idxTop + 1 = 0
        then ((s.data.set s.idxTop (some v))[0]?).getD none
        else ((s.data.set s.idxTop (some v))[s.idxTop + 1 - 1]?).getD none) = some v
    rw [if_neg (by omega)]
    simp only [Nat.add_sub_cancel]
    exact cellGet_set_self (by rw [hlen]; exact hlt) _

theorem obsList_pop {α : Type} {s : Stack α} (h : SInv s) (hpos : 0 < s.idxTop) :
    s.pop.obsList = s.obsList.dropLast ∧ s.pop.cellAt (s.idxTop - 1) = none := by
  obtain ⟨hcap, htop, hlen, hlive⟩ := h
  rw [pop_not_empty_eqS (by omega)]
  constructor
  · show (List.range (s.idxTop - 1)).map
        (fun k => ((s.data.set (s.idxTop - 1) none)[k]?).getD none)
      = s.obsList.dropLast
    obtain ⟨m, hm⟩ : ∃ m, s.idxTop = m + 1 := ⟨s.idxTop - 1, by omega⟩
    unfold obsList
    rw [hm]
    simp only [Nat.add_sub_cancel]
    rw [List.range_succ, List.map_append]
    simp only [List.map_cons, List.map_nil]
    have hdl : ∀ (l : List (Option α)) (x : Option α), (l ++ [x]).dropLast = l :=
      fun l x => by simp
    rw [hdl]
    apply List.map_congr_left
    intro k hk
    have hk2 : k < m := List.mem_range.mp hk
    exact cellGet_set_ne (by omega) _
  · show ((s.data.set (s.idxTop - 1) none)[s.idxTop - 1]?).getD none = none
    exact cellGet_set_self (by rw [hlen]; omega) _

theorem top_getLast {α : Type} {s : Stack α} (h : SInv s) (hpos : 0 < s.idxTop) :
    s.obsList.getLast? = some s.top := by
  obtain ⟨hcap, htop, hlen, hlive⟩ := h
  obtain ⟨m, hm⟩ : ∃ m, s.idxTop = m + 1 := ⟨s.idxTop - 1, by omega⟩
  unfold obsList top
  rw [hm]
  rw [if_neg (by omega)]
  simp only [Nat.add_sub_cancel]
  rw [List.range_succ, List.map_append]
  simp

theorem copyCells_lengthS {α : Type} (src : Stack α) :
    ∀ (n e : Nat) (d : List (Option α)), (copyCells src e n d).length = d.length
  | 0, _, _ => rfl
  | n + 1, e, d => by
    show (copyCells src (e + 1) n (d.set e (src.cellAt e))).length = d.length
    rw [copyCells_lengthS src n _ _]
    simp

theorem copyCells_cell_hiS {α : Type} (src : Stack α) :
    ∀ (n e : Nat) (d : List (Option α)) (j : Nat), e + n ≤ j →
      ((copyCells src e n d)[j]?).getD none = (d[j]?).getD none
  | 0, _, _, _, _ => rfl
  | n + 1, e, d, j, hj => by
    show ((copyCells src (e + 1) n (d.set e (src.cellAt e)))[j]?).getD none
      = (d[j]?).getD none
    rw [copyCells_cell_hiS src n _ _ j (by omega)]
    exact cellGet_set_ne (by omega) _

theorem copyCells_cell_loS {α : Type} (src : Stack α) :
    ∀ (n e : Nat) (d : List (Option α)) (j : Nat), j < e →
      ((copyCells src e n d)[j]?).getD none = (d[j]?).getD none
  | 0, _, _, _, _ => rfl
  | n + 1, e, d, j, hj => by
    show ((copyCells src (e + 1) n (d.set e (src.cellAt e)))[j]?).getD none
      = (d[j]?).getD none
    rw [copyCells_cell_loS src n _ _ j (by omega)]
    exact cellGet_set_ne (by omega) _

theorem copyCells_cell_midS {α : Type} (src : Stack α) :
    ∀ (n e : Nat) (d : List (Option α)) (j : Nat),
      e ≤ j → j < e + n → j < d.length →
      ((copyCells src e n d)[j]?).getD none = src.cellAt j
  | 0, _, _, _, h1, h2, _ => by omega
  | n + 1, e, d, j, h1, h2, h3 => by
    show ((copyCells src (e + 1) n (d.set e (src.cellAt e)))[j]?).getD none = src.cellAt j
    by_cases hj : j = e
    · subst hj
      rw [copyCells_cell_loS src n _ _ j (by omega)]
      exact cellGet_set_self h3 _
    · exact copyCells_cell_midS src n (e + 1) _ j (by omega) (by omega) (by simpa using h3)

theorem assign_empty_eqS {α : Type} {dest src : Stack α} (h : src.idxTop = 0) :
    dest.assign src = dest.popAll := by
  simp [assign, h]

theorem assign_not_empty_eqS {α : Type} {dest src : Stack α} (h : src.idxTop ≠ 0) :
    dest.assign src
      = { dest.popAll with
            data := copyCells src 0 src.idxTop dest.popAll.data,
            idxTop := src.idxTop } := by
  simp [assign, h]

theorem assign_inv {α : Type} {dest src : Stack α} (hc : dest.cap = src.cap)
    (hd : SInv dest) (hs : SInv src) :
    SInv (dest.assign src) ∧ (dest.assign src).idxTop = src.idxTop ∧
      (dest.assign src).cap = dest.cap := by
  obtain ⟨hd0, hd0sz, hd0cap, hd0cell⟩ := popAll_specS hd
  obtain ⟨hscap, hstop, hslen, hslive⟩ := hs
  have hd0len : dest.popAll.data.length = dest.popAll.cap := hd0.2.2.1
  have hd0capS : dest.popAll.cap = src.cap := by rw [hd0cap, hc]
  by_cases hz : src.idxTop = 0
  · rw [assign_empty_eqS hz]
    exact ⟨hd0, by omega, hd0cap⟩
  · rw [assign_not_empty_eqS hz]
    refine ⟨⟨?_, ?_, ?_, ?_⟩, rfl, hd0cap⟩
    · show 0 < dest.popAll.cap
      rw [hd0capS]; exact hscap
    · show src.idxTop ≤ dest.popAll.cap
      rw [hd0capS]; exact hstop
    · show (copyCells src 0 src.idxTop dest.popAll.data).length = dest.popAll.cap
      rw [copyCells_lengthS src src.idxTop 0 _, hd0len]
    · show ∀ i, i < dest.popAll.cap →
        ((((copyCells src 0 src.idxTop dest.popAll.data)[i]?).getD none).isSome
          ↔ i < src.idxTop)
      intro i hi
      have hi2 : i < src.cap := by rw [← hd0capS]; exact hi
      by_cases hilt : i < src.idxTop
      · rw [copyCells_cell_midS src src.idxTop 0 _ i (Nat.zero_le i) (by omega)
              (by rw [hd0len, hd0capS]; omega)]
        exact iff_of_true ((hslive i hi2).mpr hilt) hilt
      · rw [copyCells_cell_hiS src src.idxTop 0 _ i (by omega)]
        refine iff_of_false ?_ hilt
        have h2 := hd0cell i
        simp only [cellAt] at h2
        rw [h2]
        simp

end Stack

namespace Queue

theorem back_eq_front_add {α : Type} {q : Queue α} (h : QInv q) (hpos : 0 < q.sz) :
    q.idxBack = (q.idxFront + q.sz - 1) % q.cap := by
  obtain ⟨hcap, hsz, hf, hb, hlen, heq, hlive⟩ := h
  have hx : q.idxFront + q.sz = (q.idxFront + (q.sz - 1)) + 1 := by omega
  rw [hx] at heq
  have hme : (q.idxFront + (q.sz - 1)) % q.cap = q.idxBack % q.cap :=
    Nat.ModEq.add_right_cancel' 1 heq
  have h2 : q.idxFront + q.sz - 1 = q.idxFront + (q.sz - 1) := by omega
  rw [h2, hme, Nat.mod_eq_of_lt hb]

theorem pop_kills_front {α : Type} {q : Queue α} (h : QInv q) (hpos : 0 < q.sz) :
    q.pop.cellAt q.idxFront = none := by
  obtain ⟨hcap, hsz, hf, hb, hlen, heq, hlive⟩ := h
  rw [pop_not_empty_eq (by omega)]
  show ((q.data.set q.idxFront none)[q.idxFront]?).getD none = none
  exact cellGet_set_self (by rw [hlen]; exact hf) _

theorem empty_front_dead {α : Type} {q : Queue α} (h : QInv q) (hz : q.sz = 0) :
    q.front = none ∧ q.back = none := by
  obtain ⟨hcap, hsz, hf, hb, hlen, heq, hlive⟩ := h
  constructor
  · show q.cellAt q.idxFront = none
    have hl := hlive q.idxFront hf
    rw [hz] at hl
    cases hcell : q.cellAt q.idxFront with
    | none => rfl
    | some x =>
      rw [hcell] at hl
      obtain ⟨k, hk, _⟩ := hl.mp rfl
      omega
  · show q.cellAt q.idxBack = none
    have hl := hlive q.idxBack hb
    rw [hz] at hl
    cases hcell : q.cellAt q.idxBack with
    | none => rfl
    | some x =>
      rw [hcell] at hl
      obtain ⟨k, hk, _⟩ := hl.mp rfl
      omega

end Queue

namespace Stack

theorem empty_top_dead {α : Type} {s : Stack α} (h : SInv s) (hz : s.idxTop = 0) :
    s.top = none := by
  obtain ⟨hcap, htop, hlen, hlive⟩ := h
  show (if s.idxTop = 0 then s.cellAt 0 else s.cellAt (s.idxTop - 1)) = none
  rw [if_pos hz]
  have hl := hlive 0 hcap
  rw [hz] at hl
  cases hcell : s.cellAt 0 with
  | none => rfl
  | some x =>
    rw [hcell] at hl
    have := hl.mp rfl
    omega

end Stack

/-! ### Claim theorems -/

/-- C1: `push(value)` and `emplace(args...)` on a full ring queue
(`size() == SIZE`) return `false` and leave the entire observable state
(size, front and back index, every storage cell) unchanged; on a non-full
queue they return `true`, advance the back index circularly, construct
the new element exactly there, leave the front index untouched, and
increase the size by exactly one (so the observed contents gain `value`
at the back). -/
theorem claim_C1_push_emplace (α : Type) (q : Queue α) (v : α) :
    (q.sz = q.cap → q.push v = (q, false) ∧ q.emplace v = (q, false))
  ∧ (q.sz ≠ q.cap →
      q.push v
          = ({ q with sz := q.sz + 1,
                      idxBack := incIdx q.cap q.idxBack,
                      data := q.data.set (incIdx q.cap q.idxBack) (some v) }, true)
        ∧ q.emplace v
          = ({ q with sz := q.sz + 1,
                      idxBack := incIdx q.cap q.idxBack,
                      data := q.data.set (incIdx q.cap q.idxBack) (some v) }, true))
  ∧ (QInv q → q.sz < q.cap →
      (q.push v).1.obsList = q.obsList ++ [some v] ∧ (q.push v).1.sz = q.sz + 1) :=
  ⟨fun h => Queue.push_full_eq v h,
   fun h => Queue.push_not_full_eq v h,
   fun h hlt => ⟨Queue.obsList_push v h hlt, Queue.push_sz v (Nat.ne_of_lt hlt)⟩⟩

/-- Witness for C1: a full queue of capacity 2 rejects a push unchanged; a
push on the empty queue of capacity 2 succeeds and appends the value. -/
theorem claim_C1_witness :
    ((Queue.init Nat 2).pushMany [5, 6]).1.push 7
        = (((Queue.init Nat 2).pushMany [5, 6]).1, false)
  ∧ ((Queue.init Nat 2).push 5).1.obsList = [some 5]
  ∧ ((Queue.init Nat 2).push 5).1.sz = 1 := by
  refine ⟨?_, ?_, ?_⟩
  · exact ((claim_C1_push_emplace Nat ((Queue.init Nat 2).pushMany [5, 6]).1 7).1
      (by decide)).1
  · have h := ((claim_C1_push_emplace Nat (Queue.init Nat 2) 5).2.2
      (by decide) (by decide)).1
    rw [h]
    rfl
  · have h := ((claim_C1_push_emplace Nat (Queue.init Nat 2) 5).2.2
      (by decide) (by decide)).2
    rw [h]
    rfl

/-- C2: every state-changing public operation of the ring queue (default
construction, `push`, `emplace`, `pop`, `swap`, copy assignment, copy
construction) preserves the invariant `QInv` — `0 ≤ count ≤ SIZE`, both
indices in range, and the live cells exactly the circular range
`[frontIndex, frontIndex + count - 1] mod SIZE`, so in particular
`backIndex = (frontIndex + count - 1) % SIZE` whenever `count > 0` — and
every state-changing public operation of the bounded stack preserves
`SInv` (`0 ≤ topIndex ≤ SIZE` with the live cells exactly
`[0, topIndex - 1]`, contiguously).  The read-only observers do not touch
the state at all in this embedding. -/
theorem claim_C2_invariants (α : Type) (N : Nat) (hN : 0 < N) :
    QInv (Queue.init α N)
  ∧ (∀ (q : Queue α) (v : α), QInv q → QInv (q.push v).1)
  ∧ (∀ (q : Queue α) (v : α), QInv q → QInv (q.emplace v).1)
  ∧ (∀ q : Queue α, QInv q → QInv q.pop)
  ∧ (∀ a b : Queue α, a.cap = b.cap → QInv a → QInv b →
      QInv (Queue.swap a b).1 ∧ QInv (Queue.swap a b).2)
  ∧ (∀ d s : Queue α, d.cap = s.cap → QInv d → QInv s → QInv (d.assign s))
  ∧ (∀ s : Queue α, QInv s → QInv s.copy)
  ∧ (∀ q : Queue α, QInv q → 0 < q.sz →
      q.idxBack = (q.idxFront + q.sz - 1) % q.cap)
  ∧ SInv (Stack.init α N)
  ∧ (∀ (s : Stack α) (v : α), SInv s → SInv (s.push v).1)
  ∧ (∀ (s : Stack α) (v : α), SInv s → SInv (s.emplace v).1)
  ∧ (∀ s : Stack α, SInv s → SInv s.pop)
  ∧ (∀ a b : Stack α, a.cap = b.cap → SInv a → SInv b →
      SInv (Stack.swap a b).1 ∧ SInv (Stack.swap a b).2)
  ∧ (∀ d s : Stack α, d.cap = s.cap → SInv d → SInv s → SInv (d.assign s))
  ∧ (∀ s : Stack α, SInv s → SInv s.copy) := by
  refine ⟨Queue.init_inv α hN, ?_, ?_, ?_, ?_, ?_, ?_, ?_, Stack.init_invS α hN,
    ?_, ?_, ?_, ?_, ?_, ?_⟩
  · intro q v hq
    by_cases hfull : q.sz = q.cap
    · rw [(Queue.push_full_eq v hfull).1]; exact hq
    · exact Queue.push_inv v hq (Nat.lt_of_le_of_ne hq.2.1 hfull)
  · intro q v hq
    rw [Queue.emplace_eq_push]
    by_cases hfull : q.sz = q.cap
    · rw [(Queue.push_full_eq v hfull).1]; exact hq
    · exact Queue.push_inv v hq (Nat.lt_of_le_of_ne hq.2.1 hfull)
  · intro q hq
    exact Queue.pop_inv hq
  · intro a b hc ha hb
    rw [Queue.swap_exchange hc]
    exact ⟨hb, ha⟩
  · intro d s hc hd hs
    exact (Queue.assign_spec hc hd hs).1
  · intro s hs
    exact (@Queue.assign_spec α (Queue.init α s.cap) s rfl (Queue.init_inv α hs.1) hs).1
  · intro q hq hpos
    exact Queue.back_eq_front_add hq hpos
  · intro s v hs
    by_cases hfull : s.idxTop = s.cap
    · rw [(Stack.push_full_eqS v hfull).1]; exact hs
    · exact Stack.push_invS v hs (Nat.lt_of_le_of_ne hs.2.1 hfull)
  · intro s v hs
    rw [Stack.emplace_eq_pushS]
    by_cases hfull : s.idxTop = s.cap
    · rw [(Stack.push_full_eqS v hfull).1]; exact hs
    · exact Stack.push_invS v hs (Nat.lt_of_le_of_ne hs.2.1 hfull)
  · intro s hs
    exact Stack.pop_invS hs
  · intro a b hc ha hb
    rw [Stack.swap_exchangeS hc]
    exact ⟨hb, ha⟩
  · intro d s hc hd hs
    exact (Stack.assign_inv hc hd hs).1
  · intro s hs
    exact (@Stack.assign_inv α (Stack.init α s.cap) s rfl (Stack.init_invS α hs.1) hs).1

/-- Witness for C2 at capacity 1 with concrete states. -/
theorem claim_C2_witness :
    QInv (Queue.init Nat 1) ∧ QInv ((Queue.init Nat 1).push 9).1
  ∧ SInv ((Stack.init Nat 1).push 9).1 := by
  obtain ⟨h1, h2, _, _, _, _, _, _, _, h10, _⟩ := claim_C2_invariants Nat 1 (by decide)
  exact ⟨h1, h2 (Queue.init Nat 1) 9 (by decide), h10 (Stack.init Nat 1) 9 (by decide)⟩

/-- C3 counterexample: the code does not satisfy the stated empty-access
policy.  On the freshly constructed (empty) queue of capacity 3, `front()`
reads the cell at `idxFront` and `back()` the cell at `idxBack`, both of
which are dead, and on the empty stack `top()` reads the dead cell 0; no
variant fails fast or yields a live element, so the access is to a slot
that is not live. -/
theorem claim_C3_counterexample :
    (Queue.init Nat 3).sz = 0
  ∧ ((Queue.init Nat 3).cellAt (Queue.init Nat 3).idxFront).isSome = false
  ∧ (Queue.init Nat 3).front = none
  ∧ ((Queue.init Nat 3).cellAt (Queue.init Nat 3).idxBack).isSome = false
  ∧ (Queue.init Nat 3).back = none
  ∧ (Stack.init Nat 3).idxTop = 0
  ∧ (Stack.init Nat 3).topAccessIdx = 0
  ∧ ((Stack.init Nat 3).cellAt 0).isSome = false
  ∧ (Stack.init Nat 3).top = none := by
  decide

/-- C3 amended: on every empty container satisfying the state invariant,
the element accessors neither fail fast nor return a live element: the
queue's `front()`/`back()` read the dead cells at `idxFront`/`idxBack`
(both indices stay inside `[0, SIZE)`), and the stack's `top()` reads the
dead cell 0; every such read yields the content of a non-live slot
(`none` in this embedding), exactly the in-bounds dead-memory read the
original claim rules out. -/
theorem claim_C3_empty_access (α : Type) (q : Queue α) (s : Stack α)
    (hq : QInv q) (hqe : q.sz = 0) (hs : SInv s) (hse : s.idxTop = 0) :
    q.idxFront < q.cap ∧ q.front = none
  ∧ q.idxBack < q.cap ∧ q.back = none
  ∧ s.topAccessIdx = 0 ∧ 0 < s.cap ∧ s.top = none := by
  obtain ⟨hfdead, hbdead⟩ := Queue.empty_front_dead hq hqe
  exact ⟨hq.2.2.1, hfdead, hq.2.2.2.1, hbdead,
    by simp [Stack.topAccessIdx, hse], hs.1, Stack.empty_top_dead hs hse⟩

/-- Witness for the amended C3 at capacity 3. -/
theorem claim_C3_witness :
    (Queue.init Nat 3).idxFront < (Queue.init Nat 3).cap
  ∧ (Queue.init Nat 3).front = none
  ∧ (Stack.init Nat 3).top = none := by
  obtain ⟨h1, h2, _, _, _, _, h7⟩ :=
    claim_C3_empty_access Nat (Queue.init Nat 3) (Stack.init Nat 3)
      (by decide) (by decide) (by decide) (by decide)
  exact ⟨h1, h2, h7⟩

namespace Stack

theorem push_capS {α : Type} (s : Stack α) (v : α) : (s.push v).1.cap = s.cap := by
  unfold push; split
  · rfl
  · rfl

theorem push_idxTop {α : Type} {s : Stack α} (v : α) (h : s.idxTop ≠ s.cap) :
    (s.push v).1.idxTop = s.idxTop + 1 := by
  rw [(push_not_full_eqS v h).1]

theorem push_flagS {α : Type} {s : Stack α} (v : α) (h : s.idxTop ≠ s.cap) :
    (s.push v).2 = true := by
  rw [(push_not_full_eqS v h).1]

end Stack

/-- C4: pushing a list of `N` elements into a fresh ring queue of capacity
`N` succeeds element by element — the back index wraps from `SIZE - 1` to
0 on the very first push — after which the queue holds exactly those `N`
elements in insertion order and one further `push` fails, leaving the
state unchanged; and pushing `a, b, c` into a fresh queue of capacity at
least 3 and popping three times yields `a`, then `b`, then `c`, observed
through `front()` before each pop. -/
theorem claim_C4_fifo (α : Type) (N : Nat) (xs : List α) (z : α)
    (hN : 0 < N) (hlen : xs.length = N)
    (M : Nat) (a b c : α) (hM : 3 ≤ M) :
    ((Queue.init α N).pushMany xs).2 = true
  ∧ ((Queue.init α N).pushMany xs).1.sz = N
  ∧ ((Queue.init α N).pushMany xs).1.obsList = xs.map some
  ∧ ((Queue.init α N).pushMany xs).1.push z = (((Queue.init α N).pushMany xs).1, false)
  ∧ ((((Queue.init α M).push a).1.push b).1.push c).1.front = some a
  ∧ ((((Queue.init α M).push a).1.push b).1.push c).1.pop.front = some b
  ∧ ((((Queue.init α M).push a).1.push b).1.push c).1.pop.pop.front = some c
  ∧ ((((Queue.init α M).push a).1.push b).1.push c).1.pop.pop.pop.sz = 0 := by
  have hinv0 : QInv (Queue.init α N) := Queue.init_inv α hN
  have hlen0 : (Queue.init α N).sz + xs.length ≤ (Queue.init α N).cap := by
    show 0 + xs.length ≤ N
    omega
  obtain ⟨hflag, hinv, hsz, hcap, hobs⟩ :=
    Queue.pushMany_spec xs (Queue.init α N) hinv0 hlen0
  have hsz2 : ((Queue.init α N).pushMany xs).1.sz = N := by
    rw [hsz]
    show 0 + xs.length = N
    omega
  have hobs2 : ((Queue.init α N).pushMany xs).1.obsList = xs.map some := by
    rw [hobs, Queue.init_obsList]
    rfl
  have hfail : ((Queue.init α N).pushMany xs).1.push z
      = (((Queue.init α N).pushMany xs).1, false) :=
    (Queue.push_full_eq z (by rw [hsz2, hcap]; rfl)).1
  -- the a, b, c chain at capacity M
  have hM0 : (0 : Nat) < M := by omega
  have hq0 : QInv (Queue.init α M) := Queue.init_inv α hM0
  have hlt0 : (Queue.init α M).sz < (Queue.init α M).cap := by
    show 0 < M
    omega
  have hq1 : QInv ((Queue.init α M).push a).1 := Queue.push_inv a hq0 hlt0
  have h1sz : ((Queue.init α M).push a).1.sz = 1 := by
    rw [Queue.push_sz a (Nat.ne_of_lt hlt0)]
    rfl
  have h1cap : ((Queue.init α M).push a).1.cap = M := by
    rw [Queue.push_cap]
    rfl
  have h1obs : ((Queue.init α M).push a).1.obsList = [some a] := by
    rw [Queue.obsList_push a hq0 hlt0, Queue.init_obsList]
    rfl
  have hlt1 : ((Queue.init α M).push a).1.sz < ((Queue.init α M).push a).1.cap := by
    rw [h1sz, h1cap]
    omega
  have hq2 : QInv (((Queue.init α M).push a).1.push b).1 := Queue.push_inv b hq1 hlt1
  have h2sz : (((Queue.init α M).push a).1.push b).1.sz = 2 := by
    rw [Queue.push_sz b (Nat.ne_of_lt hlt1), h1sz]
  have h2cap : (((Queue.init α M).push a).1.push b).1.cap = M := by
    rw [Queue.push_cap, h1cap]
  have h2obs : (((Queue.init α M).push a).1.push b).1.obsList = [some a, some b] := by
    rw [Queue.obsList_push b hq1 hlt1, h1obs]
    rfl
  have hlt2 : (((Queue.init α M).push a).1.push b).1.sz
      < (((Queue.init α M).push a).1.push b).1.cap := by
    rw [h2sz, h2cap]
    omega
  have hq3 : QInv ((((Queue.init α M).push a).1.push b).1.push c).1 :=
    Queue.push_inv c hq2 hlt2
  have h3sz : ((((Queue.init α M).push a).1.push b).1.push c).1.sz = 3 := by
    rw [Queue.push_sz c (Nat.ne_of_lt hlt2), h2sz]
  have h3obs : ((((Queue.init α M).push a).1.push b).1.push c).1.obsList
      = [some a, some b, some c] := by
    rw [Queue.obsList_push c hq2 hlt2, h2obs]
    rfl
  have hc1 := Queue.obsList_cons hq3 (by rw [h3sz]; omega)
  rw [h3obs] at hc1
  injection hc1 with hf1 hr1
  have hq3p : QInv ((((Queue.init α M).push a).1.push b).1.push c).1.pop :=
    Queue.pop_inv hq3
  have h3psz : ((((Queue.init α M).push a).1.push b).1.push c).1.pop.sz = 2 := by
    rw [Queue.pop_sz, h3sz]
  have hc2 := Queue.obsList_cons hq3p (by rw [h3psz]; omega)
  rw [← hr1] at hc2
  injection hc2 with hf2 hr2
  have hq3pp : QInv ((((Queue.init α M).push a).1.push b).1.push c).1.pop.pop :=
    Queue.pop_inv hq3p
  have h3ppsz : ((((Queue.init α M).push a).1.push b).1.push c).1.pop.pop.sz = 1 := by
    rw [Queue.pop_sz, h3psz]
  have hc3 := Queue.obsList_cons hq3pp (by rw [h3ppsz]; omega)
  rw [← hr2] at hc3
  injection hc3 with hf3 hr3
  refine ⟨hflag, hsz2, hobs2, hfail, hf1.symm, hf2.symm, hf3.symm, ?_⟩
  rw [Queue.pop_sz, Queue.pop_sz, Queue.pop_sz, h3sz]

/-- Witness for C4: capacity 2 with elements 10, 20 and rejected push of
99; capacity 3 with elements 1, 2, 3 popped back in insertion order. -/
theorem claim_C4_witness :
    ((Queue.init Nat 2).pushMany [10, 20]).2 = true
  ∧ ((Queue.init Nat 2).pushMany [10, 20]).1.obsList = [some 10, some 20]
  ∧ ((Queue.init Nat 2).pushMany [10, 20]).1.push 99
      = (((Queue.init Nat 2).pushMany [10, 20]).1, false)
  ∧ ((((Queue.init Nat 3).push 1).1.push 2).1.push 3).1.front = some 1
  ∧ ((((Queue.init Nat 3).push 1).1.push 2).1.push 3).1.pop.front = some 2 := by
  obtain ⟨h1, _, h3, h4, h5, h6, _⟩ :=
    claim_C4_fifo Nat 2 [10, 20] 99 (by decide) (by decide) 3 1 2 3 (by decide)
  exact ⟨h1, h3, h4, h5, h6⟩

/-- C5: pushing `a, b, c` into a fresh bounded stack of capacity at least
3 succeeds, and popping three times while observing `top()` before each
pop yields `c`, then `b`, then `a`, ending empty. -/
theorem claim_C5_lifo (α : Type) (N : Nat) (a b c : α) (hN : 3 ≤ N) :
    ((Stack.init α N).push a).2 = true
  ∧ (((Stack.init α N).push a).1.push b).2 = true
  ∧ ((((Stack.init α N).push a).1.push b).1.push c).2 = true
  ∧ ((((Stack.init α N).push a).1.push b).1.push c).1.top = some c
  ∧ ((((Stack.init α N).push a).1.push b).1.push c).1.pop.top = some b
  ∧ ((((Stack.init α N).push a).1.push b).1.push c).1.pop.pop.top = some a
  ∧ ((((Stack.init α N).push a).1.push b).1.push c).1.pop.pop.pop.idxTop = 0 := by
  have hs0 : SInv (Stack.init α N) := Stack.init_invS α (by omega)
  have hne0 : (Stack.init α N).idxTop ≠ (Stack.init α N).cap := by
    show (0 : Nat) ≠ N
    omega
  have hlt0 : (Stack.init α N).idxTop < (Stack.init α N).cap := by
    show 0 < N
    omega
  have hs1 : SInv ((Stack.init α N).push a).1 := Stack.push_invS a hs0 hlt0
  have h1top : ((Stack.init α N).push a).1.idxTop = 1 := by
    rw [Stack.push_idxTop a hne0]
    rfl
  have h1cap : ((Stack.init α N).push a).1.cap = N := by
    rw [Stack.push_capS]
    rfl
  have h1obs : ((Stack.init α N).push a).1.obsList = [some a] := by
    rw [(Stack.obsList_pushS a hs0 hlt0).1, Stack.init_obsListS]
    rfl
  have hne1 : ((Stack.init α N).push a).1.idxTop ≠ ((Stack.init α N).push a).1.cap := by
    rw [h1top, h1cap]
    omega
  have hlt1 : ((Stack.init α N).push a).1.idxTop < ((Stack.init α N).push a).1.cap := by
    rw [h1top, h1cap]
    omega
  have hs2 : SInv (((Stack.init α N).push a).1.push b).1 := Stack.push_invS b hs1 hlt1
  have h2top : (((Stack.init α N).push a).1.push b).1.idxTop = 2 := by
    rw [Stack.push_idxTop b hne1, h1top]
  have h2cap : (((Stack.init α N).push a).1.push b).1.cap = N := by
    rw [Stack.push_capS, h1cap]
  have h2obs : (((Stack.init α N).push a).1.push b).1.obsList = [some a, some b] := by
    rw [(Stack.obsList_pushS b hs1 hlt1).1, h1obs]
    rfl
  have hne2 : (((Stack.init α N).push a).1.push b).1.idxTop
      ≠ (((Stack.init α N).push a).1.push b).1.cap := by
    rw [h2top, h2cap]
    omega
  have hlt2 : (((Stack.init α N).push a).1.push b).1.idxTop
      < (((Stack.init α N).push a).1.push b).1.cap := by
    rw [h2top, h2cap]
    omega
  have hs3 : SInv ((((Stack.init α N).push a).1.push b).1.push c).1 :=
    Stack.push_invS c hs2 hlt2
  have h3top : ((((Stack.init α N).push a).1.push b).1.push c).1.idxTop = 3 := by
    rw [Stack.push_idxTop c hne2, h2top]
  have h3obs : ((((Stack.init α N).push a).1.push b).1.push c).1.obsList
      = [some a, some b, some c] := by
    rw [(Stack.obsList_pushS c hs2 hlt2).1, h2obs]
    rfl
  have htop3 : ((((Stack.init α N).push a).1.push b).1.push c).1.top = some c :=
    (Stack.obsList_pushS c hs2 hlt2).2
  -- first pop
  have hp1 := Stack.obsList_pop hs3 (by rw [h3top]; omega)
  have hs3p : SInv ((((Stack.init α N).push a).1.push b).1.push c).1.pop :=
    Stack.pop_invS hs3
  have h3ptop : ((((Stack.init α N).push a).1.push b).1.push c).1.pop.idxTop = 2 := by
    rw [Stack.pop_idxTop, h3top]
  have hp1obs : ((((Stack.init α N).push a).1.push b).1.push c).1.pop.obsList
      = [some a, some b] := by
    rw [hp1.1, h3obs]
    rfl
  have hg2 := Stack.top_getLast hs3p (by rw [h3ptop]; omega)
  rw [hp1obs] at hg2
  have hg2b : (some (some b) : Option (Option α))
      = some ((((Stack.init α N).push a).1.push b).1.push c).1.pop.top := hg2
  injection hg2b with htop2
  -- second pop
  have hp2 := Stack.obsList_pop hs3p (by rw [h3ptop]; omega)
  have hs3pp : SInv ((((Stack.init α N).push a).1.push b).1.push c).1.pop.pop :=
    Stack.pop_invS hs3p
  have h3pptop : ((((Stack.init α N).push a).1.push b).1.push c).1.pop.pop.idxTop = 1 := by
    rw [Stack.pop_idxTop, h3ptop]
  have hp2obs : ((((Stack.init α N).push a).1.push b).1.push c).1.pop.pop.obsList
      = [some a] := by
    rw [hp2.1, hp1obs]
    rfl
  have hg1 := Stack.top_getLast hs3pp (by rw [h3pptop]; omega)
  rw [hp2obs] at hg1
  have hg1b : (some (some a) : Option (Option α))
      = some ((((Stack.init α N).push a).1.push b).1.push c).1.pop.pop.top := hg1
  injection hg1b with htop1
  refine ⟨Stack.push_flagS a hne0, Stack.push_flagS b hne1, Stack.push_flagS c hne2,
    htop3, htop2.symm, htop1.symm, ?_⟩
  rw [Stack.pop_idxTop, Stack.pop_idxTop, Stack.pop_idxTop, h3top]

/-- Witness for C5 at capacity 3 with elements 1, 2, 3. -/
theorem claim_C5_witness :
    ((((Stack.init Nat 3).push 1).1.push 2).1.push 3).1.top = some 3
  ∧ ((((Stack.init Nat 3).push 1).1.push 2).1.push 3).1.pop.top = some 2
  ∧ ((((Stack.init Nat 3).push 1).1.push 2).1.push 3).1.pop.pop.top = some 1
  ∧ ((((Stack.init Nat 3).push 1).1.push 2).1.push 3).1.pop.pop.pop.idxTop = 0 := by
  obtain ⟨_, _, _, h4, h5, h6, h7⟩ := claim_C5_lifo Nat 3 1 2 3 (by decide)
  exact ⟨h4, h5, h6, h7⟩

/-- C6: for every source queue satisfying the invariant and any destination
of equal capacity, copy assignment first destroys all live destination
elements (after the popping loop the destination has size 0 and only dead
cells), then yields a queue that compares equal to the source under
`operator==`, holds the same contents in the same front-to-back order,
and is re-linearized to `frontIndex = 0`, `backIndex = count - 1`; copy
construction (default-construct then assign) behaves identically.
Storage independence is inherent in this embedding: the copy is a fresh
value, so no mutation of it can reach the source. -/
theorem claim_C6_copy (α : Type) [inst : DecidableEq α] (dest src : Queue α)
    (hc : dest.cap = src.cap) (hd : QInv dest) (hs : QInv src) :
    dest.popAll.sz = 0
  ∧ (∀ i, dest.popAll.cellAt i = none)
  ∧ Queue.eqOp (dest.assign src) src = true
  ∧ (dest.assign src).sz = src.sz
  ∧ (dest.assign src).obsList = src.obsList
  ∧ (0 < src.sz →
      (dest.assign src).idxFront = 0 ∧ (dest.assign src).idxBack = src.sz - 1)
  ∧ Queue.eqOp (Queue.copy src) src = true
  ∧ (Queue.copy src).sz = src.sz
  ∧ (Queue.copy src).obsList = src.obsList
  ∧ (0 < src.sz → (Queue.copy src).idxFront = 0) := by
  obtain ⟨h1, h2, _, h4⟩ := Queue.popAll_spec hd
  obtain ⟨ha1, ha2, ha3, ha4, ha5, _⟩ := Queue.assign_spec hc hd hs
  have hci : QInv (Queue.init α src.cap) := Queue.init_inv α hs.1
  obtain ⟨hb1, hb2, hb3, hb4, hb5, _⟩ :=
    @Queue.assign_spec α (Queue.init α src.cap) src rfl hci hs
  exact ⟨h2, h4, Queue.assign_eqOp hc hd hs, ha2, ha4, ha5,
    @Queue.assign_eqOp α inst (Queue.init α src.cap) src rfl hci hs,
    hb2, hb4, fun hpos => (hb5 hpos).1⟩

/-- Witness for C6: a one-element destination of capacity 3 assigned from a
two-element source of capacity 3. -/
theorem claim_C6_witness :
    Queue.eqOp ((((Queue.init Nat 3).push 5).1).assign
        ((Queue.init Nat 3).pushMany [7, 8]).1)
      ((Queue.init Nat 3).pushMany [7, 8]).1 = true
  ∧ ((((Queue.init Nat 3).push 5).1).assign
        ((Queue.init Nat 3).pushMany [7, 8]).1).obsList
      = ((Queue.init Nat 3).pushMany [7, 8]).1.obsList
  ∧ (((Queue.init Nat 3).push 5).1).popAll.sz = 0 := by
  obtain ⟨h1, _, h3, _, h5, _⟩ :=
    claim_C6_copy Nat (((Queue.init Nat 3).push 5).1)
      ((Queue.init Nat 3).pushMany [7, 8]).1 (by decide) (by decide) (by decide)
  exact ⟨h3, h5, h1⟩

/-- C7: the latest queue's `swap` (and the stack's) unconditionally
exchanges the entire observable state, so each queue ends in the other's
pre-swap state; but the earlier queue's `swap` (QueueContainer.h, July 10
version) guards the member exchange with `if (swapQ.empty() == false)`
and is therefore a no-op when the argument queue is empty: swapping a
one-element queue with an empty one leaves both sides unchanged, against
the documented exchange semantics. -/
theorem claim_C7_swap :
    (∀ (α : Type) (a b : Queue α), a.cap = b.cap → Queue.swap a b = (b, a))
  ∧ (∀ (α : Type) (a b : Stack α), a.cap = b.cap → Stack.swap a b = (b, a))
  ∧ Queue.swapOld ((Queue.init Nat 2).push 7).1 (Queue.init Nat 2)
      = (((Queue.init Nat 2).push 7).1, Queue.init Nat 2)
  ∧ ((Queue.init Nat 2).push 7).1.sz = 1
  ∧ (Queue.init Nat 2).sz = 0
  ∧ ((Queue.init Nat 2).push 7).1 ≠ Queue.init Nat 2 := by
  refine ⟨fun α a b hc => Queue.swap_exchange hc,
    fun α a b hc => Stack.swap_exchangeS hc, by decide, by decide, by decide, by decide⟩

/-- Witness for C7: the unconditional swap applied to a one-element queue
and an empty queue of capacity 2 exchanges them. -/
theorem claim_C7_witness :
    Queue.swap ((Queue.init Nat 2).push 7).1 (Queue.init Nat 2)
      = (Queue.init Nat 2, ((Queue.init Nat 2).push 7).1) :=
  claim_C7_swap.1 Nat ((Queue.init Nat 2).push 7).1 (Queue.init Nat 2) (by decide)

/-- C8: `pop()` on an empty container is a safe no-op returning the state
unchanged; on a non-empty ring queue it destroys exactly the cell at
`frontIndex` (dead afterwards), advances `frontIndex` circularly, and
decrements the size by one, so the observation loses its head; on a
non-empty stack it destroys exactly the cell at `topIndex - 1` and
decrements `topIndex`, so the observation loses its last element. -/
theorem claim_C8_pop (α : Type) (q : Queue α) (s : Stack α) :
    (q.sz = 0 → q.pop = q)
  ∧ (QInv q → 0 < q.sz →
      q.pop.sz = q.sz - 1
        ∧ q.pop.idxFront = incIdx q.cap q.idxFront
        ∧ q.pop.cellAt q.idxFront = none
        ∧ q.obsList = q.front :: q.pop.obsList)
  ∧ (s.idxTop = 0 → s.pop = s)
  ∧ (SInv s → 0 < s.idxTop →
      s.pop.idxTop = s.idxTop - 1
        ∧ s.pop.obsList = s.obsList.dropLast
        ∧ s.pop.cellAt (s.idxTop - 1) = none) := by
  refine ⟨fun h => Queue.pop_empty_eq h, fun hq hpos => ?_,
    fun h => Stack.pop_empty_eqS h, fun hs hpos => ?_⟩
  · refine ⟨Queue.pop_sz q, ?_, Queue.pop_kills_front hq hpos,
      Queue.obsList_cons hq hpos⟩
    rw [Queue.pop_not_empty_eq (show q.sz ≠ 0 by omega)]
  · obtain ⟨h1, h2⟩ := Stack.obsList_pop hs hpos
    exact ⟨Stack.pop_idxTop s, h1, h2⟩

/-- Witness for C8: empty and one-element containers of capacity 2. -/
theorem claim_C8_witness :
    (Queue.init Nat 2).pop = Queue.init Nat 2
  ∧ ((Queue.init Nat 2).push 5).1.pop.sz = 0
  ∧ (Stack.init Nat 2).pop = Stack.init Nat 2
  ∧ ((Stack.init Nat 2).push 5).1.pop.idxTop = 0 := by
  refine ⟨(claim_C8_pop Nat (Queue.init Nat 2) (Stack.init Nat 2)).1 (by decide),
    ?_, (claim_C8_pop Nat (Queue.init Nat 2) (Stack.init Nat 2)).2.2.1 (by decide), ?_⟩
  · have h := ((claim_C8_pop Nat ((Queue.init Nat 2).push 5).1 (Stack.init Nat 2)).2.1
      (by decide) (by decide)).1
    rw [h]
    decide
  · have h := ((claim_C8_pop Nat (Queue.init Nat 2) ((Stack.init Nat 2).push 5).1).2.2.2
      (by decide) (by decide)).1
    rw [h]
    decide

/-- C9: on every in-range index the branch-based circular increment used by
the latest queue equals the modulo-based increment of the earlier queue. -/
theorem claim_C9_increment (cap i : Nat) (hcap : 0 < cap) (hi : i < cap) :
    incIdx cap i = incIdxMod cap i := by
  rw [incIdx_eq_mod hcap hi]
  rfl

/-- Witness for C9 at the wrap point and at an interior index. -/
theorem claim_C9_witness :
    incIdx 3 2 = incIdxMod 3 2 ∧ incIdx 3 0 = incIdxMod 3 0 :=
  ⟨claim_C9_increment 3 2 (by decide) (by decide),
   claim_C9_increment 3 0 (by decide) (by decide)⟩

/-- C10: the fixed array's checked accessor `at(position)` asserts
`position >= SIZE` instead of `position < SIZE`: with assertions enabled,
every access to a valid position aborts on the assertion, while every
out-of-range position passes the check and then indexes past the end of
the `SIZE`-element array, where no element exists. -/
theorem claim_C10_array_at (α : Type) (arr : ArrayC α) (position : Nat)
    (hlen : arr.data.length = arr.cap) :
    (position < arr.cap → arr.atChecked position = Except.error ())
  ∧ (arr.cap ≤ position → arr.atChecked position = Except.ok none) := by
  constructor
  · intro h
    unfold ArrayC.atChecked
    rw [if_neg (by omega)]
  · intro h
    unfold ArrayC.atChecked
    rw [if_pos h, List.getElem?_eq_none (by omega)]

/-- Witness for C10: a two-element array rejects the valid position 0 and
accepts the invalid position 5. -/
theorem claim_C10_witness :
    ArrayC.atChecked (⟨2, [10, 20]⟩ : ArrayC Nat) 0 = Except.error ()
  ∧ ArrayC.atChecked (⟨2, [10, 20]⟩ : ArrayC Nat) 5 = Except.ok none :=
  ⟨(claim_C10_array_at Nat ⟨2, [10, 20]⟩ 0 (by decide)).1 (by decide),
   (claim_C10_array_at Nat ⟨2, [10, 20]⟩ 5 (by decide)).2 (by decide)⟩
